import Mathlib

/-!
Shallow embedding of the transcript-acquisition core of
`youtube-transcript-plus` (files `src/utils.ts`, `src/index.ts`,
`src/cache/in-memory-cache.ts`, `src/cache/fs-cache.ts`), together with
theorems settling the specification claims about it.

Conventions: HTTP responses are modelled by their integer status code; a
fetch operation is a function from the attempt index to the status it
returns on that attempt; cooperative cancellation is modelled by the
initial aborted flag of the signal plus a function saying whether the
signal fires during the backoff wait that follows a given attempt.
-/

namespace YTP

/-- Mirrors `isRetryableStatus` in `src/utils.ts`:
`status === 429 || (status >= 500 && status <= 599)`. -/
def isRetryableStatus (status : Nat) : Bool :=
  status == 429 || (decide (500 ≤ status) && decide (status ≤ 599))

/-- Observable outcome of one `fetchWithRetry` run: a returned response
(with its status, the total number of calls to the operation, and the
list of backoff waits actually completed), a cancellation failure, or
the trailing `throw new Error(«Unexpected: retry loop exited without
returning»)` after the loop. -/
inductive RetryOutcome where
  | response (status : Nat) (calls : Nat) (waits : List Nat)
  | cancelled (calls : Nat) (waits : List Nat)
  | unexpectedExit
deriving DecidableEq, Repr

/-- Record one completed backoff wait in front of an outcome. -/
def addWait (w : Nat) : RetryOutcome → RetryOutcome
  | .response s c ws => .response s c (w :: ws)
  | .cancelled c ws => .cancelled c (w :: ws)
  | .unexpectedExit => .unexpectedExit

/-- The `for (let attempt = 0; attempt <= retries; attempt++)` loop of
`fetchWithRetry` in `src/utils.ts`, with `r` the number of loop
iterations still permitted (`retries + 1 - attempt`).  Reaching `r = 0`
means the loop exited without returning, which the source models by the
trailing throw. `ab attempt = true` means the cancellation signal fires
during the backoff wait that follows `attempt`. -/
def loopFrom (op : Nat → Nat) (retryDelay : Nat) (ab : Nat → Bool) :
    Nat → Nat → RetryOutcome
  | _, 0 => .unexpectedExit
  | attempt, r + 1 =>
    if isRetryableStatus (op attempt) = false ∨ r = 0 then
      .response (op attempt) (attempt + 1) []
    else if ab attempt = true then
      .cancelled (attempt + 1) []
    else
      addWait (retryDelay * 2 ^ attempt) (loopFrom op retryDelay ab (attempt + 1) r)

/-- Mirrors `fetchWithRetry` in `src/utils.ts`: if the signal is already
aborted, `signal?.throwIfAborted()` rejects before any call; otherwise
the retry loop runs for attempts `0 .. retries`. -/
def fetchWithRetry (op : Nat → Nat) (retries retryDelay : Nat)
    (sigAborted : Bool) (ab : Nat → Bool) : RetryOutcome :=
  if sigAborted then .cancelled 0 []
  else loopFrom op retryDelay ab 0 (retries + 1)

/-- The constantly-false abort schedule: the signal never fires. -/
def noAbort : Nat → Bool := fun _ => false

example : fetchWithRetry (fun _ => 200) 3 10 false noAbort = .response 200 1 [] := by decide

example : fetchWithRetry (fun _ => 503) 2 10 false noAbort = .response 503 3 [10, 20] := by
  decide

example : fetchWithRetry (fun i => if i = 0 then 429 else 200) 2 10 false noAbort
    = .response 200 2 [10] := by decide

example : fetchWithRetry (fun _ => 503) 3 10 true noAbort = .cancelled 0 [] := by decide

example : fetchWithRetry (fun _ => 503) 3 10 false (fun _ => true) = .cancelled 1 [] := by
  decide

/-- Adding a wait never turns an outcome into (or out of) the unreachable
loop exit. -/
lemma addWait_eq_unexpectedExit (w : Nat) (x : RetryOutcome) :
    addWait w x = .unexpectedExit ↔ x = .unexpectedExit := by
  cases x <;> simp [addWait]

/-- As long as at least one loop iteration is permitted, the retry loop
settles inside the loop body; it never falls through to the trailing
throw. -/
lemma loopFrom_ne_unexpectedExit (op : Nat → Nat) (d : Nat) (ab : Nat → Bool) :
    ∀ r attempt, 1 ≤ r → loopFrom op d ab attempt r ≠ .unexpectedExit := by
  intro r
  induction r with
  | zero => intro attempt h; omega
  | succ r ih =>
    intro attempt _
    by_cases hc : isRetryableStatus (op attempt) = false ∨ r = 0
    · simp [loopFrom, hc]
    · have hr : r ≠ 0 := by tauto
      by_cases hab : ab attempt = true
      · simp [loopFrom, hc, hab]
      · have h1 : 1 ≤ r := Nat.one_le_iff_ne_zero.mpr hr
        intro hcontra
        rw [loopFrom, if_neg hc, if_neg hab, addWait_eq_unexpectedExit] at hcontra
        exact ih (attempt + 1) h1 hcontra

/-- Master characterisation of an abort-free run of the retry loop
starting at `attempt` with `r` iterations permitted: it returns the
response of some attempt `attempt + k` within the budget, after exactly
`attempt + k + 1` total calls, having waited `d * 2 ^ i` between
consecutive attempts `i` and `i + 1`; every attempt strictly before the
returned one had a retryable status, and the returned one has a
non-retryable status or exhausts the budget. -/
lemma loopFrom_noAbort (op : Nat → Nat) (d : Nat) :
    ∀ r attempt, 1 ≤ r →
      ∃ k, k < r ∧
        loopFrom op d noAbort attempt r =
          .response (op (attempt + k)) (attempt + k + 1)
            ((List.range' attempt k).map fun i => d * 2 ^ i) ∧
        (∀ j, j < k → isRetryableStatus (op (attempt + j)) = true) ∧
        (isRetryableStatus (op (attempt + k)) = false ∨ k + 1 = r) := by
  intro r
  induction r with
  | zero => intro attempt h; omega
  | succ r ih =>
    intro attempt _
    by_cases hc : isRetryableStatus (op attempt) = false ∨ r = 0
    · refine ⟨0, Nat.succ_pos r, ?_, ?_, ?_⟩
      · simp [loopFrom, hc]
      · intro j hj; omega
      · rcases hc with h | h
        · exact Or.inl (by simpa using h)
        · exact Or.inr (by omega)
    · have hr : r ≠ 0 := by tauto
      have hret : isRetryableStatus (op attempt) = true := by
        rcases Bool.eq_false_or_eq_true (isRetryableStatus (op attempt)) with h | h
        · exact h
        · exact absurd (Or.inl h) hc
      have h1 : 1 ≤ r := Nat.one_le_iff_ne_zero.mpr hr
      obtain ⟨k, hk, heq, hall, hstop⟩ := ih (attempt + 1) h1
      refine ⟨k + 1, by omega, ?_, ?_, ?_⟩
      · rw [loopFrom, if_neg hc, if_neg (by simp [noAbort]), heq]
        have harr : attempt + 1 + k = attempt + (k + 1) := by omega
        have hrange : List.range' attempt (k + 1) = attempt :: List.range' (attempt + 1) k :=
          List.range'_succ attempt k 1
        simp [addWait, harr, hrange]
      · intro j hj
        cases j with
        | zero => simpa using hret
        | succ j =>
          have := hall j (by omega)
          simpa [Nat.add_comm, Nat.add_assoc, Nat.add_left_comm] using this
      · rcases hstop with h | h
        · exact Or.inl (by simpa [Nat.add_comm, Nat.add_assoc, Nat.add_left_comm] using h)
        · exact Or.inr (by omega)

/-- Master characterisation of a run in which the cancellation signal
fires during the backoff wait following attempt `attempt + k`, every
earlier wait having completed: the loop makes exactly `attempt + k + 1`
calls and settles with a cancellation, not a response. -/
lemma loopFrom_abortDuringWait (op : Nat → Nat) (d : Nat) (ab : Nat → Bool) :
    ∀ k attempt r, k + 1 < r →
      (∀ j, j < k → isRetryableStatus (op (attempt + j)) = true ∧ ab (attempt + j) = false) →
      isRetryableStatus (op (attempt + k)) = true → ab (attempt + k) = true →
      loopFrom op d ab attempt r =
        .cancelled (attempt + k + 1) ((List.range' attempt k).map fun i => d * 2 ^ i) := by
  intro k
  induction k with
  | zero =>
    intro attempt r hr _ hret hab
    obtain ⟨r', rfl⟩ : ∃ r', r = r' + 1 := ⟨r - 1, by omega⟩
    have hc : ¬(isRetryableStatus (op attempt) = false ∨ r' = 0) := by
      simp at hret ⊢
      exact ⟨by simpa using hret, by omega⟩
    rw [loopFrom, if_neg hc, if_pos (by simpa using hab)]
    simp
  | succ k ih =>
    intro attempt r hr hprev hret hab
    obtain ⟨r', rfl⟩ : ∃ r', r = r' + 1 := ⟨r - 1, by omega⟩
    obtain ⟨h0ret, h0ab⟩ := hprev 0 (Nat.succ_pos k)
    have hc : ¬(isRetryableStatus (op attempt) = false ∨ r' = 0) := by
      rintro (h | h)
      · rw [show attempt + 0 = attempt by omega] at h0ret
        exact absurd h0ret (by simp [h])
      · omega
    rw [loopFrom, if_neg hc,
      if_neg (by rw [show attempt + 0 = attempt by omega] at h0ab; simp [h0ab])]
    have hrec := ih (attempt + 1) r' (by omega)
      (fun j hj => by
        have := hprev (j + 1) (by omega)
        simpa [Nat.add_comm, Nat.add_assoc, Nat.add_left_comm] using this)
      (by simpa [Nat.add_comm, Nat.add_assoc, Nat.add_left_comm] using hret)
      (by simpa [Nat.add_comm, Nat.add_assoc, Nat.add_left_comm] using hab)
    rw [hrec]
    have hrange : List.range' attempt (k + 1) = attempt :: List.range' (attempt + 1) k :=
      List.range'_succ attempt k 1
    simp [addWait, hrange]
    omega

/-- C2: `fetchWithRetry` retries exactly on 429/5xx within the budget:
a status is retryable iff it is 429 or in 500-599; an abort-free run
returns the response of the first attempt whose status is non-retryable
or which exhausts the budget, all earlier attempts being retryable; a
first non-retryable response is returned after exactly one call; a 429
followed by a non-retryable response yields exactly two calls; an
always-503 operation with 2 retries is called exactly three times and
its final 503 response is returned as a value. -/
theorem fetchWithRetry_retry_policy (op : Nat → Nat) (retries d : Nat) :
    (∀ s, isRetryableStatus s = true ↔ (s = 429 ∨ (500 ≤ s ∧ s ≤ 599))) ∧
    (∃ k ws, k ≤ retries ∧
      fetchWithRetry op retries d false noAbort = .response (op k) (k + 1) ws ∧
      (∀ j, j < k → isRetryableStatus (op j) = true) ∧
      (isRetryableStatus (op k) = false ∨ k = retries)) ∧
    (isRetryableStatus (op 0) = false →
      fetchWithRetry op retries d false noAbort = .response (op 0) 1 []) ∧
    (op 0 = 429 → isRetryableStatus (op 1) = false → 1 ≤ retries →
      fetchWithRetry op retries d false noAbort = .response (op 1) 2 [d]) ∧
    ((∀ i, op i = 503) →
      fetchWithRetry op 2 d false noAbort = .response 503 3 [d, d * 2]) := by
  refine ⟨?_, ?_, ?_, ?_, ?_⟩
  · intro s
    simp [isRetryableStatus]
  · obtain ⟨k, hk, heq, hall, hstop⟩ := loopFrom_noAbort op d (retries + 1) 0 (by omega)
    refine ⟨k, (List.range' 0 k).map fun i => d * 2 ^ i, by omega, ?_, ?_, ?_⟩
    · rw [fetchWithRetry, if_neg (by simp)]
      simpa using heq
    · intro j hj
      simpa using hall j hj
    · rcases hstop with h | h
      · exact Or.inl (by simpa using h)
      · exact Or.inr (by omega)
  · intro h
    rw [fetchWithRetry, if_neg (by simp), loopFrom, if_pos (Or.inl h)]
  · intro h0 h1 hr
    obtain ⟨r', rfl⟩ : ∃ r', retries = r' + 1 := ⟨retries - 1, by omega⟩
    rw [fetchWithRetry, if_neg (by simp), loopFrom,
      if_neg (by simp [h0, isRetryableStatus]), if_neg (by simp [noAbort]),
      loopFrom, if_pos (Or.inl h1)]
    simp [addWait]
  · intro hop
    rw [fetchWithRetry, if_neg (by simp)]
    simp only [loopFrom, hop]
    norm_num [isRetryableStatus, noAbort, addWait]

/-- C2 witness: an operation that always answers 503 with a budget of 2
retries is called exactly three times and its final 503 response is
returned as a value. -/
theorem fetchWithRetry_retry_policy_witness :
    fetchWithRetry (fun _ => 503) 2 10 false noAbort = .response 503 3 [10, 20] := by
  have h := (fetchWithRetry_retry_policy (fun _ => 503) 2 10).2.2.2.2 (fun _ => rfl)
  simpa using h

/-- C5: cancellation in `fetchWithRetry`: an already-triggered signal
yields zero calls to the operation and a cancellation failure; a signal
firing during the backoff wait after attempt `k` (all earlier attempts
retryable with completed waits) aborts the wait and the run settles
with a cancellation failure rather than returning a response. -/
theorem fetchWithRetry_cancellation (op : Nat → Nat) (retries d : Nat) (ab : Nat → Bool) :
    (fetchWithRetry op retries d true ab = .cancelled 0 []) ∧
    (∀ k, k < retries →
      (∀ j, j < k → isRetryableStatus (op j) = true ∧ ab j = false) →
      isRetryableStatus (op k) = true → ab k = true →
      fetchWithRetry op retries d false ab =
        .cancelled (k + 1) ((List.range k).map fun i => d * 2 ^ i)) := by
  constructor
  · rw [fetchWithRetry, if_pos rfl]
  · intro k hk hprev hret hab
    rw [fetchWithRetry, if_neg (by simp)]
    have h := loopFrom_abortDuringWait op d ab k 0 (retries + 1) (by omega)
      (by simpa using hprev) (by simpa using hret) (by simpa using hab)
    simpa [List.range_eq_range'] using h

/-- C5 witness: with the signal firing during the first backoff wait of
an always-429 operation, exactly one call is made and the run is
cancelled; with the signal already aborted, zero calls are made. -/
theorem fetchWithRetry_cancellation_witness :
    fetchWithRetry (fun _ => 429) 3 10 true (fun _ => true) = .cancelled 0 [] ∧
    fetchWithRetry (fun _ => 429) 3 10 false (fun _ => true) = .cancelled 1 [] := by
  refine ⟨(fetchWithRetry_cancellation (fun _ => 429) 3 10 (fun _ => true)).1, ?_⟩
  have h := (fetchWithRetry_cancellation (fun _ => 429) 3 10 (fun _ => true)).2 0
    (by omega) (by omega) (by decide) rfl
  simpa using h

/-- C7: in an abort-free run the wait inserted between attempt `i` and
attempt `i + 1` is `d * 2 ^ i` milliseconds: a run making `k + 1` calls
performs exactly the waits `d * 2 ^ 0, …, d * 2 ^ (k - 1)` in order; in
particular a run with base delay 50 that reaches a third attempt has
waited `50` then `100`, totalling `150`. -/
theorem fetchWithRetry_backoff (op : Nat → Nat) (retries d : Nat) :
    (∃ k, k ≤ retries ∧
      fetchWithRetry op retries d false noAbort =
        .response (op k) (k + 1) ((List.range k).map fun i => d * 2 ^ i)) ∧
    (∀ s ws, fetchWithRetry op retries 50 false noAbort = .response s 3 ws →
      ws = [50, 100] ∧ ws.sum = 150) := by
  obtain ⟨k, hk, heq, -, -⟩ := loopFrom_noAbort op d (retries + 1) 0 (by omega)
  have hmain : fetchWithRetry op retries d false noAbort =
      .response (op k) (k + 1) ((List.range k).map fun i => d * 2 ^ i) := by
    rw [fetchWithRetry, if_neg (by simp)]
    simpa [List.range_eq_range'] using heq
  constructor
  · exact ⟨k, by omega, hmain⟩
  · intro s ws hws
    obtain ⟨k', hk', heq', -, -⟩ := loopFrom_noAbort op 50 (retries + 1) 0 (by omega)
    have hmain' : fetchWithRetry op retries 50 false noAbort =
        .response (op k') (k' + 1) ((List.range k').map fun i => 50 * 2 ^ i) := by
      rw [fetchWithRetry, if_neg (by simp)]
      simpa [List.range_eq_range'] using heq'
    rw [hmain'] at hws
    have hcalls : k' + 1 = 3 := (RetryOutcome.response.injEq _ _ _ _ _ _).mp hws |>.2.1
    have hk2 : k' = 2 := by omega
    subst hk2
    have hws' : ws = (List.range 2).map fun i => 50 * 2 ^ i :=
      ((RetryOutcome.response.injEq _ _ _ _ _ _).mp hws).2.2.symm
    subst hws'
    constructor <;> decide

/-- C7 witness: an operation answering 429 twice then 200, with base
delay 50, reaches its third attempt after waits of 50 and 100 ms. -/
theorem fetchWithRetry_backoff_witness :
    fetchWithRetry (fun i => if i < 2 then 429 else 200) 5 50 false noAbort =
      .response 200 3 [50, 100] ∧ ([50, 100] : List Nat).sum = 150 := by
  have h := (fetchWithRetry_backoff (fun i => if i < 2 then 429 else 200) 5 50).2
    200 [50, 100] (by decide)
  exact ⟨by decide, h.2⟩

/-- C10: `fetchWithRetry` is total over responses: the trailing throw
after the loop is unreachable for every operation, budget, delay and
cancellation behaviour; and an abort-free run returns the response of
one of the attempts `k ≤ retries` after exactly `k + 1 ≤ retries + 1`
invocations, never throwing because of a status code. -/
theorem fetchWithRetry_total (op : Nat → Nat) (retries d : Nat)
    (sigAborted : Bool) (ab : Nat → Bool) :
    fetchWithRetry op retries d sigAborted ab ≠ .unexpectedExit ∧
    ∃ k ws, k ≤ retries ∧
      fetchWithRetry op retries d false noAbort = .response (op k) (k + 1) ws := by
  constructor
  · rw [fetchWithRetry]
    by_cases hs : sigAborted = true
    · simp [hs]
    · rw [if_neg hs]
      exact loopFrom_ne_unexpectedExit op d ab (retries + 1) 0 (by omega)
  · obtain ⟨k, hk, heq, -, -⟩ := loopFrom_noAbort op d (retries + 1) 0 (by omega)
    refine ⟨k, (List.range' 0 k).map fun i => d * 2 ^ i, by omega, ?_⟩
    rw [fetchWithRetry, if_neg (by simp)]
    simpa using heq

/-- C10 witness: at a concrete always-200 operation the run returns the
response after one call, and the unreachable-throw case does not occur. -/
theorem fetchWithRetry_total_witness :
    fetchWithRetry (fun _ => 200) 3 10 false noAbort = .response 200 1 [] ∧
    fetchWithRetry (fun _ => 200) 3 10 false noAbort ≠ .unexpectedExit := by
  exact ⟨by decide, (fetchWithRetry_total (fun _ => 200) 3 10 false noAbort).1⟩

/-! Stage-2 classification (`_fetchCaptionTracks` in `src/index.ts`). -/

/-- One caption track from the player response (`CaptionTrack` in
`src/types.ts`); only the fields the pipeline reads are modelled. -/
structure CaptionTrack where
  languageCode : String
  baseUrl : Option String := none
  url : Option String := none
deriving DecidableEq, Repr

/-- The JSON value found at `captionTracks`: absent, present but not an
array, or an array of tracks. -/
inductive JsonTracks where
  | absent
  | notArray
  | arr (tracks : List CaptionTrack)
deriving DecidableEq, Repr

/-- A `playerCaptionsTracklistRenderer` object. -/
structure TracklistRenderer where
  captionTracks : JsonTracks
deriving DecidableEq, Repr

/-- The top-level `captions` field of the player response. -/
structure CaptionsField where
  playerCaptionsTracklistRenderer : Option TracklistRenderer
deriving DecidableEq, Repr

/-- The `playabilityStatus` field of the player response. -/
structure PlayabilityStatus where
  status : String
deriving DecidableEq, Repr

/-- Stage-2 player JSON, restricted to the fields `_fetchCaptionTracks`
reads. -/
structure PlayerResponse where
  captions : Option CaptionsField
  playerCaptionsTracklistRenderer : Option TracklistRenderer
  playabilityStatus : Option PlayabilityStatus
deriving DecidableEq, Repr

/-- The error taxonomy of `src/errors.ts`, with the payload each error
carries. -/
inductive TranscriptError where
  | invalidVideoId
  | invalidLang (lang : String)
  | videoUnavailable (videoId : String)
  | tooManyRequests
  | disabled (videoId : String)
  | notAvailable (videoId : String)
  | notAvailableLanguage (lang : String) (availableLangs : List String) (videoId : String)
deriving DecidableEq, Repr

/-- Mirrors `playerJson.captions?.playerCaptionsTracklistRenderer ??
playerJson.playerCaptionsTracklistRenderer` in `src/index.ts`. -/
def tracklistOf (p : PlayerResponse) : Option TracklistRenderer :=
  match p.captions with
  | some c =>
    match c.playerCaptionsTracklistRenderer with
    | some tl => some tl
    | none => p.playerCaptionsTracklistRenderer
  | none => p.playerCaptionsTracklistRenderer

/-- Mirrors `playerJson.playabilityStatus?.status === 'OK'`. -/
def isPlayableOk (p : PlayerResponse) : Bool :=
  match p.playabilityStatus with
  | some st => st.status == "OK"
  | none => false

/-- The classification step of `_fetchCaptionTracks` in `src/index.ts`
(lines 397-420): given the parsed player JSON, either produce the
non-empty caption-track list or classify the failure. -/
def classifyCaptionTracks (p : PlayerResponse) (identifier : String) :
    Except TranscriptError (List CaptionTrack) :=
  let tracklist := tracklistOf p
  if p.captions.isNone ∨ tracklist.isNone then
    if isPlayableOk p then .error (.disabled identifier)
    else .error (.notAvailable identifier)
  else
    match tracklist with
    | some tl =>
      match tl.captionTracks with
      | .arr (t :: ts) => .ok (t :: ts)
      | _ => .error (.disabled identifier)
    | none => .error (.notAvailable identifier)

/-- No captions field at all, video reported playable. -/
def noCaptionsPlayable : PlayerResponse :=
  { captions := none, playerCaptionsTracklistRenderer := none,
    playabilityStatus := some { status := "OK" } }

/-- No captions field at all, video not reported playable. -/
def noCaptionsUnplayable : PlayerResponse :=
  { captions := none, playerCaptionsTracklistRenderer := none,
    playabilityStatus := some { status := "ERROR" } }

/-- Captions present with a renderer whose track list is empty. -/
def emptyTracksPlayable : PlayerResponse :=
  { captions := some { playerCaptionsTracklistRenderer := some { captionTracks := .arr [] } },
    playerCaptionsTracklistRenderer := none,
    playabilityStatus := some { status := "OK" } }

/-- A single English caption track. -/
def enTrack : CaptionTrack := { languageCode := "en" }

/-- Captions present with a renderer holding one English track. -/
def oneEnglishTrack : PlayerResponse :=
  { captions := some { playerCaptionsTracklistRenderer := some { captionTracks := .arr [enTrack] } },
    playerCaptionsTracklistRenderer := none,
    playabilityStatus := some { status := "OK" } }

example : classifyCaptionTracks noCaptionsPlayable "vid" = .error (.disabled "vid") := rfl

example : classifyCaptionTracks noCaptionsUnplayable "vid" = .error (.notAvailable "vid") := rfl

example : classifyCaptionTracks emptyTracksPlayable "vid" = .error (.disabled "vid") := rfl

/-- The input refuting claim C1 as stated: `captions` is present (an
object without a `playerCaptionsTracklistRenderer`), no top-level
tracklist renderer exists, and the video is not reported playable. -/
def captionsPresentNoRenderer : PlayerResponse :=
  { captions := some { playerCaptionsTracklistRenderer := none },
    playerCaptionsTracklistRenderer := none,
    playabilityStatus := some { status := "ERROR" } }

/-- C1 counterexample: when `captions` is present but yields no
tracklist renderer at either nesting path (so the track list is not an
array) and the video is not playable, the pipeline fails with
NotAvailable, not with Disabled as the claim requires. -/
theorem classifyCaptionTracks_counterexample :
    captionsPresentNoRenderer.captions.isSome = true ∧
    classifyCaptionTracks captionsPresentNoRenderer "vid" = .error (.notAvailable "vid") ∧
    classifyCaptionTracks captionsPresentNoRenderer "vid" ≠ .error (.disabled "vid") := by
  refine ⟨rfl, rfl, ?_⟩
  intro h
  rw [show classifyCaptionTracks captionsPresentNoRenderer "vid"
        = .error (.notAvailable "vid") from rfl] at h
  simp at h

/-- C1 amended: if `captions` and the tracklist renderer are both absent
the pipeline fails with Disabled when `playabilityStatus.status` is
`"OK"` and with NotAvailable otherwise; the same rule applies when
`captions` is present but no tracklist renderer is found at either
nesting path; and when `captions` is present and a tracklist renderer is
found but its `captionTracks` is absent, not an array, or an empty
array, the pipeline fails with Disabled. -/
theorem classifyCaptionTracks_spec (p : PlayerResponse) (identifier : String) :
    (p.captions = none → tracklistOf p = none →
      classifyCaptionTracks p identifier =
        (if isPlayableOk p then .error (.disabled identifier)
         else .error (.notAvailable identifier))) ∧
    (p.captions.isSome = true → tracklistOf p = none →
      classifyCaptionTracks p identifier =
        (if isPlayableOk p then .error (.disabled identifier)
         else .error (.notAvailable identifier))) ∧
    (∀ tl, p.captions.isSome = true → tracklistOf p = some tl →
      (tl.captionTracks = .absent ∨ tl.captionTracks = .notArray ∨
          tl.captionTracks = .arr []) →
      classifyCaptionTracks p identifier = .error (.disabled identifier)) ∧
    (∀ tl t ts, p.captions.isSome = true → tracklistOf p = some tl →
      tl.captionTracks = .arr (t :: ts) →
      classifyCaptionTracks p identifier = .ok (t :: ts)) := by
  refine ⟨?_, ?_, ?_, ?_⟩
  · intro hc htl
    by_cases hp : isPlayableOk p = true <;>
      simp [classifyCaptionTracks, hc, htl, hp]
  · intro hc htl
    by_cases hp : isPlayableOk p = true <;>
      simp [classifyCaptionTracks, hc, htl, hp, Option.isNone_iff_eq_none,
        Option.isSome_iff_ne_none.mp hc]
  · intro tl hc htl hbad
    obtain ⟨c, hcc⟩ := Option.isSome_iff_exists.mp hc
    rcases hbad with h | h | h <;>
      simp [classifyCaptionTracks, hcc, htl, h]
  · intro tl t ts hc htl harr
    obtain ⟨c, hcc⟩ := Option.isSome_iff_exists.mp hc
    simp [classifyCaptionTracks, hcc, htl, harr]

/-- C1 amended witness: concrete instances of all four branches of the
amended classification rule. -/
theorem classifyCaptionTracks_spec_witness :
    classifyCaptionTracks noCaptionsPlayable "vid" = .error (.disabled "vid") ∧
    classifyCaptionTracks captionsPresentNoRenderer "vid" = .error (.notAvailable "vid") ∧
    classifyCaptionTracks emptyTracksPlayable "vid" = .error (.disabled "vid") ∧
    classifyCaptionTracks oneEnglishTrack "vid" = .ok [enTrack] := by
  refine ⟨?_, ?_, ?_, ?_⟩
  · have h := (classifyCaptionTracks_spec noCaptionsPlayable "vid").1 (by rfl) (by rfl)
    simpa using h
  · have h := (classifyCaptionTracks_spec captionsPresentNoRenderer "vid").2.1 (by rfl) (by rfl)
    simpa using h
  · exact (classifyCaptionTracks_spec emptyTracksPlayable "vid").2.2.1
      { captionTracks := .arr [] } (by rfl) (by rfl) (Or.inr (Or.inr rfl))
  · exact (classifyCaptionTracks_spec oneEnglishTrack "vid").2.2.2
      { captionTracks := .arr [enTrack] } enTrack [] (by rfl) (by rfl) (by rfl)

/-! Cache implementations (`src/cache/in-memory-cache.ts` and
`src/cache/fs-cache.ts`).  `Date.now()` is passed explicitly as `now`;
entries keep the absolute expiry computed at `set` time. -/

/-- The backing `Map` of `InMemoryCache`: an association list from keys
to `{ value, expires }` entries (keys are unique by construction). -/
abbrev MemCacheState := List (String × String × Nat)

/-- Remove a key, mirroring `Map.delete` / `fs.unlink`. -/
def eraseKey (k : String) (c : List (String × α)) : List (String × α) :=
  c.filter fun e => e.1 ≠ k

namespace InMemoryCache

/-- Mirrors `InMemoryCache.get`: a present, unexpired entry is returned;
otherwise the key is deleted (cleaning up an expired entry) and the call
reports a miss. -/
def get (c : MemCacheState) (key : String) (now : Nat) :
    Option String × MemCacheState :=
  match c.lookup key with
  | some (v, expires) => if now < expires then (some v, c) else (none, eraseKey key c)
  | none => (none, eraseKey key c)

/-- Mirrors `InMemoryCache.set`: store the value with absolute expiry
`now + (ttl ?? defaultTTL)`. -/
def set (c : MemCacheState) (key value : String) (ttl : Option Nat)
    (defaultTTL now : Nat) : MemCacheState :=
  (key, value, now + ttl.getD defaultTTL) :: eraseKey key c

end InMemoryCache

/-- Mirrors `sanitizeKey` in `src/cache/fs-cache.ts`: every character
outside `[a-zA-Z0-9_-]` is replaced by an underscore. -/
def sanitizeKey (key : String) : String :=
  String.mk (key.data.map fun c =>
    if c.isAlpha || c.isDigit || c == '_' || c == '-' then c else '_')

/-- The cache directory of `FsCache`: file names map to contents; `none`
models a file whose contents do not parse as `{ value, expires }` JSON. -/
abbrev FsCacheState := List (String × Option (String × Nat))

namespace FsCache

/-- Mirrors `FsCache.get`: a missing file or unparseable contents is a
miss (the exception is caught); parsed contents are returned when
unexpired, otherwise the file is unlinked and the call reports a miss. -/
def get (fs : FsCacheState) (key : String) (now : Nat) :
    Option String × FsCacheState :=
  let file := sanitizeKey key
  match fs.lookup file with
  | none => (none, fs)
  | some none => (none, fs)
  | some (some (v, expires)) =>
    if now < expires then (some v, fs) else (none, eraseKey file fs)

/-- Mirrors `FsCache.set`: write `{ value, expires: now + (ttl ??
defaultTTL) }` to the file for the sanitized key (last write wins). -/
def set (fs : FsCacheState) (key value : String) (ttl : Option Nat)
    (defaultTTL now : Nat) : FsCacheState :=
  (sanitizeKey key, some (value, now + ttl.getD defaultTTL)) :: eraseKey (sanitizeKey key) fs

end FsCache

example : (InMemoryCache.get [("k", "v", 10)] "k" 9).1 = some "v" := by decide
example : InMemoryCache.get [("k", "v", 10)] "k" 10 = (none, []) := by decide
example : (FsCache.get [("k", some ("v", 10))] "k" 9).1 = some "v" := by decide
example : FsCache.get [("k", some ("v", 10))] "k" 10 = (none, []) := by decide

/-- Looking up a key after erasing it always misses. -/
lemma lookup_eraseKey (k : String) (c : List (String × α)) :
    (eraseKey k c).lookup k = none := by
  induction c with
  | nil => rfl
  | cons e rest ih =>
    obtain ⟨ek, ev⟩ := e
    by_cases h : ek = k
    · simpa [eraseKey, List.filter_cons, h] using ih
    · have hbe : (k == ek) = false := beq_eq_false_iff_ne.mpr (Ne.symm h)
      simpa [eraseKey, List.filter_cons, h, List.lookup, hbe] using ih

/-- C3: neither cache ever serves an entry whose expiry has passed: a
hit always comes from an entry whose expiry is strictly in the future;
an expired entry is reported as a miss and evicted, so a repeated get
also misses; and a set followed by a get of the same key before the
expiry returns exactly the stored value. -/
theorem cache_get_never_expired (c : MemCacheState) (fs : FsCacheState)
    (key value : String) (ttl : Option Nat) (defaultTTL now setTime readTime : Nat) :
    (∀ v, (InMemoryCache.get c key now).1 = some v →
      ∃ expires, c.lookup key = some (v, expires) ∧ now < expires) ∧
    (∀ v expires, c.lookup key = some (v, expires) → expires ≤ now →
      InMemoryCache.get c key now = (none, eraseKey key c) ∧
      (InMemoryCache.get (InMemoryCache.get c key now).2 key now).1 = none) ∧
    (readTime < setTime + ttl.getD defaultTTL →
      (InMemoryCache.get (InMemoryCache.set c key value ttl defaultTTL setTime)
        key readTime).1 = some value) ∧
    (∀ v, (FsCache.get fs key now).1 = some v →
      ∃ expires, fs.lookup (sanitizeKey key) = some (some (v, expires)) ∧ now < expires) ∧
    (∀ v expires, fs.lookup (sanitizeKey key) = some (some (v, expires)) → expires ≤ now →
      FsCache.get fs key now = (none, eraseKey (sanitizeKey key) fs) ∧
      (FsCache.get (FsCache.get fs key now).2 key now).1 = none) ∧
    (readTime < setTime + ttl.getD defaultTTL →
      (FsCache.get (FsCache.set fs key value ttl defaultTTL setTime)
        key readTime).1 = some value) := by
  refine ⟨?_, ?_, ?_, ?_, ?_, ?_⟩
  · intro v hv
    cases hl : c.lookup key with
    | none => simp [InMemoryCache.get, hl] at hv
    | some p =>
      obtain ⟨v', expires⟩ := p
      by_cases ht : now < expires
      · simp only [InMemoryCache.get, hl, if_pos ht, Option.some.injEq] at hv
        subst hv
        exact ⟨expires, rfl, ht⟩
      · simp [InMemoryCache.get, hl, ht] at hv
  · intro v expires hl ht
    have h1 : InMemoryCache.get c key now = (none, eraseKey key c) := by
      simp [InMemoryCache.get, hl, Nat.not_lt.mpr ht]
    refine ⟨h1, ?_⟩
    rw [h1]
    simp [InMemoryCache.get, lookup_eraseKey]
  · intro ht
    simp [InMemoryCache.get, InMemoryCache.set, List.lookup, ht]
  · intro v hv
    cases hl : fs.lookup (sanitizeKey key) with
    | none => simp [FsCache.get, hl] at hv
    | some p =>
      cases p with
      | none => simp [FsCache.get, hl] at hv
      | some q =>
        obtain ⟨v', expires⟩ := q
        by_cases ht : now < expires
        · simp only [FsCache.get, hl, if_pos ht, Option.some.injEq] at hv
          subst hv
          exact ⟨expires, rfl, ht⟩
        · simp [FsCache.get, hl, ht] at hv
  · intro v expires hl ht
    have h1 : FsCache.get fs key now = (none, eraseKey (sanitizeKey key) fs) := by
      simp [FsCache.get, hl, Nat.not_lt.mpr ht]
    refine ⟨h1, ?_⟩
    rw [h1]
    simp [FsCache.get, lookup_eraseKey]
  · intro ht
    simp [FsCache.get, FsCache.set, List.lookup, ht]

/-- C3 witness: concrete round-trips through both caches: a value stored
at time 0 with TTL 100 is read back at time 99 and missed (with
eviction) at time 100. -/
theorem cache_get_never_expired_witness :
    (InMemoryCache.get (InMemoryCache.set [] "k" "v" (some 100) 3600000 0) "k" 99).1
      = some "v" ∧
    (FsCache.get (FsCache.set [] "k" "v" (some 100) 3600000 0) "k" 99).1 = some "v" ∧
    InMemoryCache.get [("k", "v", 100)] "k" 100 = (none, []) ∧
    FsCache.get [("k", some ("v", 100))] "k" 100 = (none, []) := by
  refine ⟨?_, ?_, ?_, ?_⟩
  · exact (cache_get_never_expired [] [] "k" "v" (some 100) 3600000 0 0 99).2.2.1 (by decide)
  · exact (cache_get_never_expired [] [] "k" "v" (some 100) 3600000 0 0 99).2.2.2.2.2
      (by decide)
  · have h := (cache_get_never_expired [("k", "v", 100)] [] "k" "v" none 0 100 0 0).2.1
      "v" 100 (by decide) (by decide)
    simpa [eraseKey] using h.1
  · have h := (cache_get_never_expired [] [("k", some ("v", 100))] "k" "v" none 0 100 0
      0).2.2.2.2.1 "v" 100 (by decide) (by decide)
    simpa [eraseKey] using h.1

/-! Cache interaction of `fetchTranscript` (`src/index.ts`, cache lookup
lines 471-486 and cache store lines 555-562).  The pipeline between the
two cache touch points is abstracted as its result, `Except E R`; the
caller-supplied strategy is abstracted by the outcome of its `get`
(`Except Unit (Option String)`, where `.error` models a thrown
exception and `none` a miss) and of its `set`. -/

/-- How one `fetchTranscript` call ends, seen from the caller. -/
inductive CallResult (E R : Type) where
  | success (r : R)
  | failure (e : E)
  | cacheGetFailure
deriving DecidableEq, Repr

/-- The part of `fetchTranscript` after the cache lookup: run the
pipeline; on success attempt `cache.set` inside `try { … } catch { }`
(the empty catch swallows any exception, so the result is independent
of `setOutcome`) and return the result. -/
def runPipelineAndStore {E R : Type} (pipeline : Except E R)
    (setOutcome : Except Unit Unit) : CallResult E R :=
  match pipeline with
  | .error e => .failure e
  | .ok r =>
    match setOutcome with
    | .ok _ => .success r
    | .error _ => .success r

/-- The cache layer of `fetchTranscript` in `src/index.ts`: `await
cache.get(cacheKey)` is not guarded by any try/catch, so a thrown
exception propagates; a truthy cached string that parses is returned
directly; a falsy or unparseable cached value falls through to the full
pipeline (`JSON.parse` errors are caught and ignored). -/
def fetchTranscriptWithCache {E R : Type} (getOutcome : Except Unit (Option String))
    (parse : String → Option R) (pipeline : Except E R)
    (setOutcome : Except Unit Unit) : CallResult E R :=
  match getOutcome with
  | .error _ => .cacheGetFailure
  | .ok cached =>
    match cached with
    | some s =>
      if s ≠ "" then
        match parse s with
        | some r => .success r
        | none => runPipelineAndStore pipeline setOutcome
      else runPipelineAndStore pipeline setOutcome
    | none => runPipelineAndStore pipeline setOutcome

/-- Mirrors a `fetchTranscript` call without a configured cache: just
the pipeline. -/
def fetchTranscriptNoCache {E R : Type} (pipeline : Except E R) : CallResult E R :=
  match pipeline with
  | .error e => .failure e
  | .ok r => .success r

/-- C4 counterexample: against the claim, an exception thrown by
`cache.get` is not swallowed: with a throwing `get` and a pipeline that
would succeed with the value `0`, the call neither runs the pipeline nor
returns its result; it fails with the propagated cache exception,
differing from the cache-less call on the same pipeline. -/
theorem fetchTranscript_cacheGet_counterexample :
    fetchTranscriptWithCache (E := Unit) (R := Nat) (.error ()) (fun _ => none)
        (.ok 0) (.ok ()) = .cacheGetFailure ∧
    fetchTranscriptWithCache (E := Unit) (R := Nat) (.error ()) (fun _ => none)
        (.ok 0) (.ok ()) ≠ .success 0 ∧
    fetchTranscriptNoCache (E := Unit) (.ok 0) = .success 0 := by
  exact ⟨rfl, by decide, rfl⟩

/-- C4 amended: cached content that fails to parse as the expected
result shape is swallowed and treated as a miss (the full pipeline runs
and the call behaves exactly as without a cache), a miss likewise falls
through to the pipeline, and an exception thrown by `cache.set` is
swallowed without affecting the result; but an exception thrown by
`cache.get` is not swallowed: it propagates and fails the call. -/
theorem fetchTranscript_cache_advisory {E R : Type}
    (parse : String → Option R) (pipeline : Except E R)
    (setOutcome setOutcome' : Except Unit Unit) (s : String) :
    (parse s = none →
      fetchTranscriptWithCache (.ok (some s)) parse pipeline setOutcome =
        fetchTranscriptNoCache pipeline) ∧
    (fetchTranscriptWithCache (.ok none) parse pipeline setOutcome =
      fetchTranscriptNoCache pipeline) ∧
    (fetchTranscriptWithCache (.ok (some s)) parse pipeline setOutcome =
      fetchTranscriptWithCache (.ok (some s)) parse pipeline setOutcome') ∧
    (fetchTranscriptWithCache (.error ()) parse pipeline setOutcome = .cacheGetFailure) := by
  have hrun : ∀ so : Except Unit Unit,
      runPipelineAndStore pipeline so = fetchTranscriptNoCache pipeline := by
    intro so
    cases pipeline with
    | error e => rfl
    | ok r => cases so <;> rfl
  refine ⟨?_, ?_, ?_, ?_⟩
  · intro hp
    by_cases hs : s = ""
    · simp [fetchTranscriptWithCache, hs, hrun]
    · simp [fetchTranscriptWithCache, hs, hp, hrun]
  · simp [fetchTranscriptWithCache, hrun]
  · by_cases hs : s = ""
    · simp [fetchTranscriptWithCache, hs, hrun]
    · cases hp : parse s <;> simp [fetchTranscriptWithCache, hs, hp, hrun]
  · rfl

/-- C4 amended witness: with unparseable cached content the call returns
the pipeline result, exactly as without a cache, even when `cache.set`
throws. -/
theorem fetchTranscript_cache_advisory_witness :
    fetchTranscriptWithCache (E := Unit) (R := Nat) (.ok (some "not valid json"))
        (fun _ => none) (.ok 7) (.error ()) = .success 7 ∧
    fetchTranscriptNoCache (E := Unit) (.ok 7) = .success 7 := by
  have h := (fetchTranscript_cache_advisory (E := Unit) (R := Nat) (fun _ => none)
    (.ok 7) (.error ()) (.ok ()) "not valid json").1 rfl
  exact ⟨by rw [h]; rfl, rfl⟩

/-! Identifier resolution (`retrieveVideoId` in `src/utils.ts`). -/

/-- A character of the video-id alphabet `[a-zA-Z0-9_-]`. -/
def isIdChar (c : Char) : Bool :=
  c.isAlpha || c.isDigit || c == '_' || c == '-'

/-- Mirrors `RE_VIDEO_ID.test` for `/^[a-zA-Z0-9_-]{11}$/` in
`src/utils.ts`. -/
def isValidVideoId (l : List Char) : Bool :=
  l.length == 11 && l.all isIdChar

/-- Scan for the first occurrence of `marker` and read the 11 id
characters that follow it. -/
def extractAfter (marker : List Char) : List Char → Option (List Char)
  | [] => none
  | c :: rest =>
    if marker.isPrefixOf (c :: rest) then
      let cand := ((c :: rest).drop marker.length).take 11
      if cand.length == 11 && cand.all isIdChar then some cand else none
    else extractAfter marker rest

/-- Modelled from the spec: the URL regular expression `RE_YOUTUBE`
lives in `src/constants.ts`, which is not among the provided sources.
Section 4.1 of the design says resolution attempts each known URL shape
(standard watch, short link, embed, live, shorts) in order and takes the
first captured 11-character identifier. -/
def matchYoutubeUrl (l : List Char) : Option (List Char) :=
  ["watch?v=".data, "youtu.be/".data, "embed/".data, "live/".data, "shorts/".data]
    |>.findSome? fun marker => extractAfter marker l

/-- Mirrors `retrieveVideoId` in `src/utils.ts`: an exact 11-character
identifier is returned unchanged; otherwise the first URL-shape capture
is returned; otherwise the call fails with `InvalidVideoId`. -/
def retrieveVideoId (videoId : String) : Except TranscriptError String :=
  if isValidVideoId videoId.data then .ok videoId
  else
    match matchYoutubeUrl videoId.data with
    | some v => .ok (String.mk v)
    | none => .error .invalidVideoId

example : retrieveVideoId "dQw4w9WgXcQ" = .ok "dQw4w9WgXcQ" := rfl

example : retrieveVideoId "https://www.youtube.com/watch?v=dQw4w9WgXcQ"
    = .ok "dQw4w9WgXcQ" := rfl

example : retrieveVideoId "https://youtu.be/dQw4w9WgXcQ" = .ok "dQw4w9WgXcQ" := rfl

/-- C6: every string of exactly 11 characters drawn from the id alphabet
is returned unchanged, and the strings `"invalid"` and
`"https://example.com"`, which match neither the 11-character pattern
nor any known URL shape, fail with `InvalidVideoId`. -/
theorem retrieveVideoId_spec (s : String) :
    (s.data.length = 11 → (∀ c ∈ s.data, isIdChar c = true) →
      retrieveVideoId s = .ok s) ∧
    retrieveVideoId "invalid" = .error .invalidVideoId ∧
    retrieveVideoId "https://example.com" = .error .invalidVideoId := by
  refine ⟨?_, rfl, rfl⟩
  intro hlen hall
  have hv : isValidVideoId s.data = true := by
    rw [isValidVideoId]
    simp only [Bool.and_eq_true, beq_iff_eq, List.all_eq_true]
    exact ⟨hlen, hall⟩
  rw [retrieveVideoId, if_pos hv]

/-- C6 witness: the identifier `dQw4w9WgXcQ` is returned unchanged. -/
theorem retrieveVideoId_spec_witness :
    retrieveVideoId "dQw4w9WgXcQ" = .ok "dQw4w9WgXcQ" :=
  (retrieveVideoId_spec "dQw4w9WgXcQ").1 (by decide) (by decide)

/-! Stage-4 transcript-URL construction (`src/index.ts` lines 500-510):
`transcriptURL.replace(/&fmt=[^&]+/, '')` followed by the optional
scheme downgrade.  The regex replaces only the first occurrence, and
only when the parameter is introduced by an ampersand. -/

/-- Whether the list starts with a match of the regex `&fmt=[^&]+`:
the literal `&fmt=` followed by at least one character other than
`&`. -/
def startsFmtMatch : List Char → Bool
  | '&' :: 'f' :: 'm' :: 't' :: '=' :: d :: _ => d != '&'
  | _ => false

/-- Mirrors `transcriptURL.replace(/&fmt=[^&]+/, '')`: scan left to
right; at the first position matching `&fmt=[^&]+` delete the greedy
match and stop; otherwise keep the character. -/
def stripFmt : List Char → List Char
  | [] => []
  | c :: rest =>
    if startsFmtMatch (c :: rest) then
      ((c :: rest).drop 5).dropWhile fun x => x != '&'
    else c :: stripFmt rest

/-- Whether the regex `&fmt=[^&]+` matches anywhere in the list. -/
def hasFmtMatch : List Char → Bool
  | [] => false
  | c :: rest => startsFmtMatch (c :: rest) || hasFmtMatch rest

/-- Whether `fmt=` occurs anywhere in the list. -/
def containsFmtParam : List Char → Bool
  | [] => false
  | c :: rest => ['f', 'm', 't', '='].isPrefixOf (c :: rest) || containsFmtParam rest

/-- Mirrors the stage-4 URL construction in `src/index.ts`: strip the
first `&fmt=[^&]+` match, then downgrade the scheme when
`disableHttps` is set. -/
def transcriptUrlOf (baseUrl : String) (disableHttps : Bool) : String :=
  let stripped := String.mk (stripFmt baseUrl.data)
  if disableHttps then
    if "https://".data.isPrefixOf stripped.data then
      String.mk ("http://".data ++ stripped.data.drop 8)
    else stripped
  else stripped

example : transcriptUrlOf "https://x/api?a=1&fmt=srv3&lang=en" false
    = "https://x/api?a=1&lang=en" := rfl

example : transcriptUrlOf "https://x/api?a=1&fmt=srv3" false = "https://x/api?a=1" := rfl

example : transcriptUrlOf "https://x/api?a=1&fmt=srv3" true = "http://x/api?a=1" := rfl

/-- C8 counterexample: a track URL whose `fmt=` parameter is the first
query parameter (introduced by `?`) is not matched by `&fmt=[^&]+`:
stage 4 leaves the URL unchanged and the fetched URL still contains a
`fmt=` parameter, contradicting the claim. -/
theorem stripFmt_counterexample :
    transcriptUrlOf "https://x/api/timedtext?fmt=srv3&lang=en" false
      = "https://x/api/timedtext?fmt=srv3&lang=en" ∧
    containsFmtParam
      (transcriptUrlOf "https://x/api/timedtext?fmt=srv3&lang=en" false).data = true := by
  exact ⟨rfl, rfl⟩

/-- A non-matching head character is kept and scanning continues. -/
lemma stripFmt_cons (c : Char) (rest : List Char)
    (h : startsFmtMatch (c :: rest) = false) :
    stripFmt (c :: rest) = c :: stripFmt rest := by
  rw [stripFmt, if_neg (by simp [h])]

/-- Dropping while a predicate holds skips a block where it holds. -/
lemma dropWhile_all_append (p : Char → Bool) (b s : List Char)
    (hb : ∀ x ∈ b, p x = true) :
    (b ++ s).dropWhile p = s.dropWhile p := by
  induction b with
  | nil => rfl
  | cons x xs ih =>
    rw [List.cons_append, List.dropWhile_cons, if_pos (hb x (by simp))]
    exact ih fun y hy => hb y (by simp [hy])

/-- C8 amended, part 1: a URL without any `&fmt=[^&]+` match is left
unchanged. -/
lemma stripFmt_of_no_match : ∀ l : List Char, hasFmtMatch l = false → stripFmt l = l := by
  intro l
  induction l with
  | nil => intro _; rfl
  | cons c rest ih =>
    intro h
    rw [hasFmtMatch, Bool.or_eq_false_iff] at h
    rw [stripFmt_cons c rest h.1, ih h.2]

/-- The five characters of the literal `&fmt=`. -/
def fmtPat : List Char := ['&', 'f', 'm', 't', '=']

/-- C8 amended, part 2: when the URL splits as
`a ++ "&fmt=" ++ b ++ suffix` with no match starting inside `a`, a
non-empty ampersand-free value `b`, and `suffix` empty or starting with
`&`, the entire `&fmt=` parameter is removed and everything else is
preserved. -/
lemma stripFmt_removes_match :
    ∀ (a b suffix : List Char),
      (∀ t ∈ a.tails, t ≠ [] → startsFmtMatch (t ++ fmtPat ++ b ++ suffix) = false) →
      b ≠ [] → (∀ x ∈ b, x ≠ '&') →
      (suffix = [] ∨ ∃ s, suffix = '&' :: s) →
      stripFmt (a ++ fmtPat ++ b ++ suffix) = a ++ suffix := by
  intro a
  induction a with
  | nil =>
    intro b suffix _ hb hbamp hsuf
    obtain ⟨x, b', rfl⟩ : ∃ x b', b = x :: b' := by
      cases b with
      | nil => exact absurd rfl hb
      | cons x b' => exact ⟨x, b', rfl⟩
    have hx : (x != '&') = true := by
      simp [bne_iff_ne]
      exact hbamp x (by simp)
    rw [List.nil_append]
    rw [show fmtPat ++ (x :: b') ++ suffix
        = '&' :: 'f' :: 'm' :: 't' :: '=' :: (x :: b' ++ suffix) by simp [fmtPat]]
    rw [stripFmt, if_pos (by simp [startsFmtMatch, hx])]
    rw [show (('&' :: 'f' :: 'm' :: 't' :: '=' :: (x :: b' ++ suffix)).drop 5)
        = x :: b' ++ suffix by rfl]
    have hall : ∀ y ∈ x :: b', (y != '&') = true := by
      intro y hy
      simp [bne_iff_ne]
      exact hbamp y hy
    rw [show (x :: b' ++ suffix : List Char) = (x :: b') ++ suffix by simp]
    rw [dropWhile_all_append _ (x :: b') suffix hall]
    rcases hsuf with rfl | ⟨s, rfl⟩
    · rfl
    · rw [List.dropWhile_cons, if_neg (by simp)]
      rfl
  | cons c a' ih =>
    intro b suffix hno hb hbamp hsuf
    have hhead : startsFmtMatch ((c :: a') ++ fmtPat ++ b ++ suffix) = false :=
      hno (c :: a') (by simp) (by simp)
    rw [show (c :: a') ++ fmtPat ++ b ++ suffix
        = c :: (a' ++ fmtPat ++ b ++ suffix) by simp] at hhead ⊢
    rw [stripFmt_cons _ _ hhead]
    rw [ih b suffix (fun t ht htne => hno t (by simp [List.tails_cons, ht]) htne) hb hbamp hsuf]
    simp

/-- C8 corrected statement: stage 4 removes the first occurrence of an
ampersand-introduced `fmt` parameter (`&fmt=` followed by a non-empty
run of non-`&` characters) from the selected track URL, leaving the
rest of the URL intact; a URL with no such occurrence — in particular
one whose only `fmt=` follows the `?` introducing the query string — is
fetched unchanged. -/
theorem transcriptUrl_strips_amp_fmt (u : String) (a b suffix : List Char) :
    (hasFmtMatch u.data = false → transcriptUrlOf u false = u) ∧
    ((∀ t ∈ a.tails, t ≠ [] → startsFmtMatch (t ++ fmtPat ++ b ++ suffix) = false) →
      b ≠ [] → (∀ x ∈ b, x ≠ '&') →
      (suffix = [] ∨ ∃ s, suffix = '&' :: s) →
      stripFmt (a ++ fmtPat ++ b ++ suffix) = a ++ suffix) := by
  constructor
  · intro h
    rw [transcriptUrlOf]
    simp only [stripFmt_of_no_match u.data h]
    cases u
    rfl
  · exact stripFmt_removes_match a b suffix

/-- C8 witness: both parts of the corrected statement at concrete URLs:
a URL whose only `fmt=` follows `?` is unchanged, and an
ampersand-introduced `fmt=srv3` is removed. -/
theorem transcriptUrl_strips_amp_fmt_witness :
    transcriptUrlOf "https://x/t?fmt=srv3" false = "https://x/t?fmt=srv3" ∧
    stripFmt ("?a=1&fmt=srv3&lang=en".data) = "?a=1&lang=en".data := by
  constructor
  · exact (transcriptUrl_strips_amp_fmt "https://x/t?fmt=srv3" [] [] []).1 (by rfl)
  · have h := (transcriptUrl_strips_amp_fmt "" "?a=1".data "srv3".data "&lang=en".data).2
      (by decide) (by decide) (by decide) (Or.inr ⟨"lang=en".data, rfl⟩)
    simpa using h

/-! XML entity decoding (`decodeXmlEntities` in `src/utils.ts`): a
single global-regex pass replacing each of the six recognised entity
references by its character; scanning resumes after each match, so the
emitted replacement text is never rescanned. -/

/-- The apostrophe character, the replacement for both the `apos` and
the numeric 39 entity. -/
def aposChar : Char := Char.ofNat 39

/-- The six entity references recognised by `RE_XML_ENTITY` together
with their replacement characters from `XML_ENTITIES`, in alternation
order. -/
def entityRefs : List (List Char × Char) :=
  [(['&', 'a', 'm', 'p', ';'], '&'),
   (['&', 'l', 't', ';'], '<'),
   (['&', 'g', 't', ';'], '>'),
   (['&', 'q', 'u', 'o', 't', ';'], '"'),
   (['&', 'a', 'p', 'o', 's', ';'], aposChar),
   (['&', '#', '3', '9', ';'], aposChar)]

/-- The entity reference starting at the head of the list, if any. -/
def findEntityRef (l : List Char) : Option (List Char × Char) :=
  entityRefs.find? fun e => e.1.isPrefixOf l

/-- One left-to-right pass of
`text.replace(RE_XML_ENTITY, (match) => XML_ENTITIES[match])` over the
characters of the text: at each position the six entity references are
tried; on a match the replacement character is emitted and scanning
resumes after the match (the replacement is never rescanned); otherwise
the character is copied.  The first argument is recursion fuel; one
unit is consumed per emitted character, so `l.length` always
suffices. -/
def decodeXmlF : Nat → List Char → List Char
  | 0, l => l
  | _ + 1, [] => []
  | f + 1, c :: rest =>
    match findEntityRef (c :: rest) with
    | some (pat, r) => r :: decodeXmlF f (rest.drop (pat.length - 1))
    | none => c :: decodeXmlF f rest

/-- The decoding pass at its sufficient fuel. -/
def decodeXml (l : List Char) : List Char := decodeXmlF l.length l

/-- Mirrors `decodeXmlEntities` in `src/utils.ts`. -/
def decodeXmlEntities (text : String) : String :=
  String.mk (decodeXml text.data)

/-- Whether the text contains a recognised entity reference anywhere. -/
def entityFree : List Char → Bool
  | [] => true
  | c :: rest => (findEntityRef (c :: rest)).isNone && entityFree rest

example : decodeXmlEntities "rock &amp; roll" = "rock & roll" := rfl
example : decodeXmlEntities "it&#39;s" = "it's" := rfl
example : decodeXmlEntities "it&apos;s" = "it's" := rfl
example : decodeXmlEntities "a &quot;test&quot;" = "a \"test\"" := rfl
example : decodeXmlEntities "&lt;tag&gt;" = "<tag>" := rfl
example : decodeXmlEntities "Hello world" = "Hello world" := rfl

/-- C9 counterexample: decoding is not idempotent on its own output:
`&amp;amp;` decodes to `&amp;`, which itself decodes further to `&`, so
a second application changes the text. -/
theorem decodeXmlEntities_counterexample :
    decodeXmlEntities "&amp;amp;" = "&amp;" ∧
    decodeXmlEntities (decodeXmlEntities "&amp;amp;") = "&" ∧
    decodeXmlEntities (decodeXmlEntities "&amp;amp;") ≠ decodeXmlEntities "&amp;amp;" := by
  refine ⟨rfl, rfl, ?_⟩
  intro h
  rw [show decodeXmlEntities (decodeXmlEntities "&amp;amp;") = "&" from rfl,
    show decodeXmlEntities "&amp;amp;" = "&amp;" from rfl] at h
  exact absurd h (by decide)

/-- A head position at which no entity reference starts is copied
verbatim. -/
lemma decodeXml_cons (c : Char) (rest : List Char)
    (h : findEntityRef (c :: rest) = none) :
    decodeXml (c :: rest) = c :: decodeXml rest := by
  simp only [decodeXml, List.length_cons, decodeXmlF, h]

/-- Decoding is the identity on entity-free text. -/
lemma decodeXml_entityFree : ∀ l : List Char, entityFree l = true → decodeXml l = l := by
  intro l
  induction l with
  | nil => intro _; rfl
  | cons c rest ih =>
    intro h
    rw [entityFree, Bool.and_eq_true, Option.isNone_iff_eq_none] at h
    rw [decodeXml_cons c rest h.1, ih h.2]

/-- C9 corrected statement: `decodeXmlEntities` maps each of the six
recognised entity references to its character, also in combination, and
is the identity on text containing no recognised entity reference (so a
second application of the function is the identity whenever the first
output is entity-free); but it is not idempotent on arbitrary output,
since one pass never rescans the replacement text it emits. -/
theorem decodeXmlEntities_spec (s : String) :
    decodeXmlEntities "&amp;" = "&" ∧
    decodeXmlEntities "&lt;" = "<" ∧
    decodeXmlEntities "&gt;" = ">" ∧
    decodeXmlEntities "&quot;" = "\"" ∧
    decodeXmlEntities "&apos;" = "'" ∧
    decodeXmlEntities "&#39;" = "'" ∧
    decodeXmlEntities "A &amp; B &lt; C &gt; D" = "A & B < C > D" ∧
    (entityFree s.data = true → decodeXmlEntities s = s) := by
  refine ⟨rfl, rfl, rfl, rfl, rfl, rfl, rfl, ?_⟩
  intro h
  rw [decodeXmlEntities, decodeXml_entityFree s.data h]

/-- C9 witness: the combined example decodes as specified, and decoding
the entity-free string `A & B < C > D` leaves it unchanged. -/
theorem decodeXmlEntities_spec_witness :
    decodeXmlEntities "A &amp; B &lt; C &gt; D" = "A & B < C > D" ∧
    decodeXmlEntities "A & B < C > D" = "A & B < C > D" := by
  exact ⟨(decodeXmlEntities_spec "A & B < C > D").2.2.2.2.2.2.1,
    (decodeXmlEntities_spec "A & B < C > D").2.2.2.2.2.2.2 (by rfl)⟩

end YTP
